import Mathlib

/-!
Verification development for the `ulauncher-toggl-extension` repository.

We shallowly embed the parts of the code that the specification talks
about:

* `count_table` / `format_line` — the column-table parser of
  `toggl/toggl_cli.py` (`TogglCli.count_table`, `TogglCli.format_line`);
* `cache_data` / `load_data` together with `CustomSerializer` /
  `CustomDeserializer` — the persisted record cache of the same file,
  with JSON modelled at the value level (a `JVal` tree stands for the
  text that `json.dumps`/`json.loads` write and read back);
* `list_trackers` — the tracker-listing operation of `TrackerCli`,
  with the external CLI's stdout supplied as an explicit list of lines;
* `parse_query` — the query tokenizer of `extension.py`
  (`KeywordQueryEventListener.parse_query`), including the regex
  pre-pass for the quoted description;
* `match_results` — the fuzzy fallback dispatcher of `extension.py`
  (`TogglExtension.match_results`), parameterised by the similarity
  score function (`ulauncher.utils.fuzzy_search.get_score` is an
  external library; the spec fixes only its 0–100 interface).

Python strings are modelled as `List Char`; Python exceptions are
modelled by `Option`/explicit error values; `datetime` values are
modelled as integer timestamps (seconds), `timedelta` constants as
integer second counts.
-/

namespace ToggleExt

/-! ## Python string primitives -/

/-- Python `str.isspace`-style whitespace test used by `str.strip()`. -/
def isWs (c : Char) : Bool := c.isWhitespace

/-- Python `s.strip()`: drop whitespace from both ends. -/
def pyStrip (l : List Char) : List Char :=
  ((l.dropWhile isWs).reverse.dropWhile isWs).reverse

/-- Python slice `s[a:b]` for non-negative bounds: empty when `b ≤ a`,
clamped at the end of the string. -/
def pySlice (l : List Char) (a b : Nat) : List Char :=
  (l.drop a).take (b - a)

/-- Python slice `s[a:]`. -/
def pyDrop (l : List Char) (a : Nat) : List Char := l.drop a

/-- Python `s.lower()` (ASCII approximation of `str.lower`; every string
the code compares against is ASCII). -/
def pyLower (l : List Char) : List Char := l.map Char.toLower

/-- Python `s.split(sep)` for a single-character separator: keeps empty
chunks, `"".split(" ") = ['']`. -/
def pySplitChar (sep : Char) : List Char → List (List Char)
  | [] => [[]]
  | c :: rest =>
    match pySplitChar sep rest with
    | [] => [[]]
    | g :: gs => if c = sep then [] :: g :: gs else (c :: g) :: gs

/-- Python `s.split(sep)` for a multi-character separator: split at each
leftmost non-overlapping occurrence. -/
def pySplitOn (sep : List Char) : List Char → List (List Char)
  | [] => [[]]
  | c :: rest =>
    if _h : sep.length = 0 then [c :: rest]
    else if _hp : sep.isPrefixOf (c :: rest) then
      [] :: pySplitOn sep ((c :: rest).drop sep.length)
    else
      match pySplitOn sep rest with
      | [] => [[]]
      | g :: gs => (c :: g) :: gs
  termination_by l => l.length
  decreasing_by
    · simp only [List.length_drop, List.length_cons]
      omega
    · simp [Nat.lt_succ_self]

/-! ## Column-table parser (`TogglCli.count_table`, `TogglCli.format_line`) -/

/-- The fixed right-aligned column names of `count_table`. -/
def rightAligned : List (List Char) :=
  ["start".toList, "stop".toList, "duration".toList]

/-- One step of `count_table`'s scan: decide whether the boundary
condition fires at the current letter given the word accumulated so
far.  First branch of the Python `if`: a left-aligned word start. -/
def ctCond1 (cw : List Char) (c : Char) : Bool :=
  ¬(pyLower (pyStrip cw) ∈ rightAligned)
    ∧ cw ≠ [] ∧ cw.getLastD 'x' = ' ' ∧ c ≠ ' '
    ∧ cw.any Char.isAlpha

/-- Second branch (`elif`): end of a right-aligned column word. -/
def ctCond2 (cw : List Char) (c : Char) : Bool :=
  (pyLower (pyStrip cw) ∈ rightAligned)
    ∧ cw.getLastD ' ' ≠ ' ' ∧ c = ' '

/-- The scanning loop of `count_table`: `idx` is the enumerate index of
the current letter, `cw` the `current_word` accumulator. -/
def countTableAux (idx : Nat) (cw : List Char) : List Char → List Nat
  | [] => []
  | c :: rest =>
    if ctCond1 cw c ∨ ctCond2 cw c then
      idx :: countTableAux (idx + 1) [c] rest
    else
      countTableAux (idx + 1) (cw ++ [c]) rest

/-- `TogglCli.count_table`: column boundary offsets of a header line. -/
def count_table (header : List Char) : List Nat :=
  countTableAux 0 [] header

/-- `TogglCli.format_line`: slice a data line at the boundary offsets,
stripping each field; with a `names` set supplied, return `None`
(modelled `none`) as soon as a sliced field is in the set.  The loop is
threaded through `prev` (previous boundary) and the accumulated fields. -/
def formatLineAux (item : List Char) (names : Option (List (List Char)))
    (prev : Nat) (acc : List (List Char)) :
    List Nat → Option (List (List Char))
  | [] => some (acc ++ [pyStrip (pyDrop item prev)])
  | i :: rest =>
    let d := pyStrip (pySlice item prev i)
    if names.elim false (fun ns => decide (d ∈ ns)) then none
    else formatLineAux item names i (acc ++ [d]) rest

/-- `TogglCli.format_line`. -/
def format_line (header_size : List Nat) (item : List Char)
    (names : Option (List (List Char))) : Option (List (List Char)) :=
  formatLineAux item names 0 [] header_size

/-- Closed form of the fields `format_line`'s loop slices out, starting
from a given previous boundary `prev` (the trailing remainder is not
included). -/
def bfAux (item : List Char) (prev : Nat) (bs : List Nat) : List (List Char) :=
  ((prev :: bs).zip bs).map fun q => pyStrip (pySlice item q.1 q.2)

/-- The boundary fields of a data line: one stripped slice per boundary,
excluding the trailing remainder. -/
def boundaryFields (bs : List Nat) (item : List Char) : List (List Char) :=
  bfAux item 0 bs

/-- The last boundary (0 when there are none): the `prev` value after
`format_line`'s loop. -/
def lastBoundary (bs : List Nat) : Nat := bs.getLastD 0

/-! ## Lemmas about the column-table parser -/

theorem countTableAux_bounds (hdr : List Char) :
    ∀ idx cw b, b ∈ countTableAux idx cw hdr → idx ≤ b ∧ b < idx + hdr.length := by
  induction hdr with
  | nil => intro idx cw b h; simp [countTableAux] at h
  | cons c rest ih =>
    intro idx cw b h
    rw [countTableAux] at h
    simp only [List.length_cons]
    split at h
    · rcases List.mem_cons.mp h with rfl | h2
      · omega
      · have := ih (idx + 1) [c] b h2; omega
    · have := ih (idx + 1) (cw ++ [c]) b h; omega

theorem countTableAux_sorted (hdr : List Char) :
    ∀ idx cw, List.Pairwise (· < ·) (countTableAux idx cw hdr) := by
  induction hdr with
  | nil => intro idx cw; simp [countTableAux]
  | cons c rest ih =>
    intro idx cw
    rw [countTableAux]
    split
    · refine List.Pairwise.cons ?_ (ih (idx + 1) [c])
      intro b hb
      have := countTableAux_bounds rest (idx + 1) [c] b hb
      omega
    · exact ih (idx + 1) (cw ++ [c])

theorem count_table_sorted (header : List Char) :
    List.Pairwise (· < ·) (count_table header) :=
  countTableAux_sorted header 0 []

theorem ctCond1_nil (c : Char) : ctCond1 [] c = false := by
  simp [ctCond1]

theorem ctCond2_nil (c : Char) : ctCond2 [] c = false := by
  simp [ctCond2]

theorem count_table_mem (header : List Char) :
    ∀ b ∈ count_table header, 0 < b ∧ b ≤ header.length := by
  intro b hb
  cases header with
  | nil => simp [count_table, countTableAux] at hb
  | cons c rest =>
    rw [count_table, countTableAux] at hb
    split at hb
    · next hcond =>
      rw [ctCond1_nil, ctCond2_nil] at hcond
      simp at hcond
    · have := countTableAux_bounds rest 1 [c] b hb
      simp only [List.length_cons]
      omega

theorem chain_le_of_pairwise_lt :
    ∀ (a : Nat) (l : List Nat), List.Pairwise (· < ·) l →
      (∀ b ∈ l, a ≤ b) → List.Chain (· ≤ ·) a l
  | _, [], _, _ => .nil
  | a, b :: l, hpw, ha => by
    rcases List.pairwise_cons.mp hpw with ⟨hb, hl⟩
    exact List.Chain.cons (ha b (List.mem_cons_self b l))
      (chain_le_of_pairwise_lt b l hl fun x hx => le_of_lt (hb x hx))

theorem slices_join (item : List Char) :
    ∀ (bs : List Nat) (p : Nat), List.Chain (· ≤ ·) p bs →
      (((p :: bs).zip bs).map fun q => pySlice item q.1 q.2).flatten
          ++ pyDrop item (bs.getLastD p)
        = pyDrop item p := by
  intro bs
  induction bs with
  | nil => intro p _; simp [pyDrop]
  | cons b rest ih =>
    intro p hch
    cases hch with
    | cons hpb hch =>
      have hrest := ih b hch
      simp only [List.zip_cons_cons, List.map_cons, List.flatten_cons,
        List.getLastD_cons, List.append_assoc]
      rw [hrest]
      show pySlice item p b ++ pyDrop item b = pyDrop item p
      simp only [pySlice, pyDrop]
      have hdd : List.drop b item = List.drop (b - p) (List.drop p item) := by
        rw [List.drop_drop]
        congr 1
        omega
      rw [hdd]
      exact List.take_append_drop _ _

/-- C10: for every header string the column-boundary detector returns a
strictly increasing sequence of offsets, each strictly positive and at
most the header's length; consequently slicing any data line at these
offsets partitions its prefix into contiguous, non-overlapping, in-order
segments plus a trailing remainder (the raw slices concatenated with the
remainder reassemble the whole line). -/
theorem c10_count_table_boundaries (header : List Char) :
    List.Pairwise (· < ·) (count_table header)
    ∧ (∀ b ∈ count_table header, 0 < b ∧ b ≤ header.length)
    ∧ ∀ item : List Char,
        (((0 :: count_table header).zip (count_table header)).map
            fun q => pySlice item q.1 q.2).flatten
          ++ pyDrop item (lastBoundary (count_table header))
        = item := by
  refine ⟨count_table_sorted header, count_table_mem header, fun item => ?_⟩
  have hch := chain_le_of_pairwise_lt 0 (count_table header)
    (count_table_sorted header) fun b _ => Nat.zero_le b
  have := slices_join item (count_table header) 0 hch
  simpa [lastBoundary, pyDrop] using this

/-- Witness for `c10_count_table_boundaries` at a concrete header:
`"ab cd"` has the single boundary 3, which is positive and within the
header's length. -/
theorem c10_count_table_boundaries_witness :
    3 ∈ count_table "ab cd".toList
    ∧ 0 < 3 ∧ 3 ≤ ("ab cd".toList).length :=
  ⟨by decide,
   (c10_count_table_boundaries "ab cd".toList).2.1 3 (by decide)⟩

theorem bfAux_cons (item : List Char) (prev i : Nat) (rest : List Nat) :
    bfAux item prev (i :: rest)
      = pyStrip (pySlice item prev i) :: bfAux item i rest := by
  simp [bfAux]

theorem formatLineAux_none_iff (item : List Char) (ns : List (List Char)) :
    ∀ (bs : List Nat) (prev : Nat) (acc : List (List Char)),
      formatLineAux item (some ns) prev acc bs = none
        ↔ ∃ d ∈ bfAux item prev bs, d ∈ ns := by
  intro bs
  induction bs with
  | nil => intro prev acc; simp [formatLineAux, bfAux]
  | cons i rest ih =>
    intro prev acc
    rw [bfAux_cons]
    by_cases hd : pyStrip (pySlice item prev i) ∈ ns
    · simp [formatLineAux, hd]
    · simp only [formatLineAux, Option.elim, decide_eq_true_eq, hd,
        if_false, ih i (acc ++ [pyStrip (pySlice item prev i)])]
      simp [hd]

theorem formatLineAux_some (item : List Char) (names : Option (List (List Char))) :
    ∀ (bs : List Nat) (prev : Nat) (acc : List (List Char)),
      (∀ d ∈ bfAux item prev bs,
        names.elim false (fun ns => decide (d ∈ ns)) = false) →
      formatLineAux item names prev acc bs
        = some (acc ++ (bfAux item prev bs
            ++ [pyStrip (pyDrop item (bs.getLastD prev))])) := by
  intro bs
  induction bs with
  | nil => intro prev acc _; simp [formatLineAux, bfAux]
  | cons i rest ih =>
    intro prev acc hmiss
    rw [bfAux_cons] at hmiss ⊢
    have hhead := hmiss _ (List.mem_cons_self _ _)
    rw [formatLineAux]
    simp only [hhead, Bool.false_eq_true, if_false]
    rw [ih i (acc ++ [pyStrip (pySlice item prev i)])
      (fun d hd => hmiss d (List.mem_cons_of_mem _ hd))]
    rw [List.getLastD_cons]
    simp

theorem boundaryFields_length (bs : List Nat) (item : List Char) :
    (boundaryFields bs item).length = bs.length := by
  simp [boundaryFields, bfAux]

/-- C7 (amended): the line formatter discards the line exactly when ANY
of the boundary-sliced fields (not only the first, and excluding the
trailing remainder) matches a name in the supplied set; when no sliced
field matches, it yields one stripped substring per boundary plus a
trailing remainder; and a line shorter than the boundaries yields empty
trailing fields rather than failing. -/
theorem c7_format_line_fields (bs : List Nat) (item : List Char)
    (ns : List (List Char)) :
    (format_line bs item (some ns) = none
      ↔ ∃ d ∈ boundaryFields bs item, d ∈ ns)
    ∧ ((∀ d ∈ boundaryFields bs item, d ∉ ns) →
        format_line bs item (some ns)
          = some (boundaryFields bs item
              ++ [pyStrip (pyDrop item (lastBoundary bs))]))
    ∧ (∀ i, ∀ h : i < (boundaryFields bs item).length,
        item.length ≤ (0 :: bs).getD i 0 →
        (boundaryFields bs item).get ⟨i, h⟩ = []) := by
  refine ⟨formatLineAux_none_iff item ns bs 0 [], fun hmiss => ?_, ?_⟩
  · have := formatLineAux_some item (some ns) bs 0 []
      (fun d hd => by simp [hmiss d hd])
    simpa [format_line, boundaryFields, lastBoundary] using this
  · intro i h hlen
    have hlt : i < bs.length := by
      have := boundaryFields_length bs item; omega
    have hlt1 : i < (0 :: bs).length := by simp; omega
    have hzip : i < ((0 :: bs).zip bs).length := by
      simp [List.length_zip]; omega
    have hget : (boundaryFields bs item).get ⟨i, h⟩
        = pyStrip (pySlice item ((0 :: bs).get ⟨i, hlt1⟩) (bs.get ⟨i, hlt⟩)) := by
      simp only [boundaryFields, bfAux, List.get_eq_getElem,
        List.getElem_map, List.getElem_zip]
    rw [hget]
    have hD : (0 :: bs).getD i 0 = (0 :: bs).get ⟨i, hlt1⟩ := by
      simp [List.getD_eq_getElem?_getD, List.getElem?_eq_getElem hlt1]
    rw [hD] at hlen
    have hnil : pySlice item ((0 :: bs).get ⟨i, hlt1⟩) (bs.get ⟨i, hlt⟩) = [] := by
      simp only [pySlice]
      rw [List.drop_eq_nil_of_le hlen]
      simp
    rw [hnil]
    simp [pyStrip]

/-- C7 counterexample: with boundaries `[2, 5]`, line `"ab cd x"` and
seen-name set `{"cd"}`, the first sliced field `"ab"` is NOT in the set,
yet the line is discarded (the second field `"cd"` matches), refuting
"discards exactly when the first sliced field matches". -/
theorem c7_first_field_counterexample :
    format_line [2, 5] "ab cd x".toList (some ["cd".toList]) = none
    ∧ pyStrip (pySlice "ab cd x".toList 0 2) = "ab".toList
    ∧ "ab".toList ∉ ["cd".toList] := by
  refine ⟨by decide, by decide, by decide⟩

/-- Witness for `c7_format_line_fields` at a concrete input. -/
theorem c7_format_line_fields_witness :
    format_line [2, 5] "ab cd x".toList (some ["zz".toList])
      = some (boundaryFields [2, 5] "ab cd x".toList
          ++ [pyStrip (pyDrop "ab cd x".toList (lastBoundary [2, 5]))]) :=
  (c7_format_line_fields [2, 5] "ab cd x".toList ["zz".toList]).2.1 (by decide)

/-! ## Data model: tracker and project records (`TogglTracker`, `TProject`) -/

/-- `TogglTracker` named tuple of `toggl_cli.py`. -/
structure TogglTracker where
  description : String
  entry_id : String
  stop : String
  project : Option String := none
  start : Option String := none
  duration : Option String := none
  tags : Option (List String) := none
deriving DecidableEq

/-- `TProject` named tuple of `toggl_cli.py`. -/
structure TProject where
  name : String
  project_id : Int
  client : String
  color : String
  active : Bool := true
deriving DecidableEq

/-- A cached record is a tracker or a project. -/
inductive Record where
  | tracker (t : TogglTracker)
  | project (p : TProject)
deriving DecidableEq

/-- The two record kinds, each with its own cache file and TTL. -/
inductive RecordKind where
  | tracker
  | project

/-- `CACHE_LEN` per kind, in seconds: `timedelta(days=1)` for
`TrackerCli`, `timedelta(weeks=2)` for `TogglProjects`. -/
def CACHE_LEN : RecordKind → Int
  | .tracker => 24 * 60 * 60
  | .project => 2 * (7 * (24 * 60 * 60))

/-! ## JSON values

`json.dumps`/`json.loads` are modelled at the value level: a `JVal`
tree stands for the JSON text the cache file holds (the Python `json`
library is an exact value/text inverse for these trees). -/

inductive JVal where
  | null
  | bool (b : Bool)
  | int (n : Int)
  | str (s : String)
  | arr (items : List JVal)
  | obj (fields : List (String × JVal))

/-! ## Timestamp codec

`datetime.now()` is modelled as an integer timestamp; the external
`datetime.isoformat` / `datetime.fromisoformat` pair is modelled as a
decimal codec on integers (`iso`/`fromiso`): what the cache logic needs
of it is that reading back a written timestamp recovers it and that a
non-timestamp string fails to parse. -/

/-- Decimal digit characters of a natural number. -/
def natChars (n : Nat) : List Char :=
  if n = 0 then ['0'] else ((Nat.digits 10 n).map Nat.digitChar).reverse

/-- `datetime.isoformat`, modelled as decimal rendering. -/
def iso (d : Int) : String :=
  if d < 0 then ⟨'-' :: natChars (-d).toNat⟩ else ⟨natChars d.toNat⟩

/-- Numeric value of a decimal digit character. -/
def charVal (c : Char) : Nat := c.toNat - 48

/-- Parse a non-empty all-digit character list as a natural number. -/
def natParse (l : List Char) : Option Nat :=
  if l = [] then none
  else if l.all Char.isDigit then
    some (Nat.ofDigits 10 ((l.map charVal).reverse))
  else none

/-- Character-list form of `fromiso`. -/
def fromisoChars : List Char → Option Int
  | [] => none
  | c :: rest =>
    if c = '-' then (natParse rest).map fun n => -(Int.ofNat n)
    else (natParse (c :: rest)).map fun n => Int.ofNat n

/-- `datetime.fromisoformat`, modelled as decimal parsing; `none` models
the `ValueError` raised on a malformed string. -/
def fromiso (s : String) : Option Int := fromisoChars s.toList

theorem digitChar_isDigit {x : Nat} (h : x < 10) :
    (Nat.digitChar x).isDigit = true := by
  interval_cases x <;> decide

theorem charVal_digitChar {x : Nat} (h : x < 10) :
    charVal (Nat.digitChar x) = x := by
  interval_cases x <;> decide

theorem digitChar_ne_neg {x : Nat} (h : x < 10) : Nat.digitChar x ≠ '-' := by
  interval_cases x <;> decide

theorem natParse_natChars (n : Nat) : natParse (natChars n) = some n := by
  by_cases h : n = 0
  · subst h; decide
  · have hmem : ∀ d ∈ Nat.digits 10 n, d < 10 := fun d hd =>
      Nat.digits_lt_base (by norm_num) hd
    have hne : Nat.digits 10 n ≠ [] := Nat.digits_ne_nil_iff_ne_zero.mpr h
    have hchars : natChars n = ((Nat.digits 10 n).map Nat.digitChar).reverse := by
      simp [natChars, h]
    rw [hchars, natParse]
    have hnil : ((Nat.digits 10 n).map Nat.digitChar).reverse ≠ [] := by
      simp [hne]
    rw [if_neg hnil]
    have hall : (((Nat.digits 10 n).map Nat.digitChar).reverse).all Char.isDigit
        = true := by
      rw [List.all_eq_true]
      intro c hc
      rw [List.mem_reverse, List.mem_map] at hc
      obtain ⟨d, hd, rfl⟩ := hc
      exact digitChar_isDigit (hmem d hd)
    rw [if_pos hall]
    congr 1
    have : ((((Nat.digits 10 n).map Nat.digitChar).reverse).map charVal).reverse
        = Nat.digits 10 n := by
      rw [List.map_reverse, List.reverse_reverse, List.map_map]
      rw [show (Nat.digits 10 n).map (charVal ∘ Nat.digitChar)
            = (Nat.digits 10 n).map id from
        List.map_congr_left fun d hd => charVal_digitChar (hmem d hd)]
      simp
    rw [this, Nat.ofDigits_digits]

theorem natChars_head_digit (n : Nat) :
    ∃ c cs, natChars n = c :: cs ∧ c.isDigit = true := by
  by_cases h : n = 0
  · exact ⟨'0', [], by simp [natChars, h], by decide⟩
  · have hne : Nat.digits 10 n ≠ [] := Nat.digits_ne_nil_iff_ne_zero.mpr h
    have hmem : ∀ d ∈ Nat.digits 10 n, d < 10 := fun d hd =>
      Nat.digits_lt_base (by norm_num) hd
    rcases hl : ((Nat.digits 10 n).map Nat.digitChar).reverse with _ | ⟨c, cs⟩
    · exfalso
      apply hne
      have := congrArg List.length hl
      simp at this
      exact this
    · refine ⟨c, cs, by simp [natChars, h, hl], ?_⟩
      have hc : c ∈ ((Nat.digits 10 n).map Nat.digitChar).reverse := by
        rw [hl]; exact List.mem_cons_self _ _
      rw [List.mem_reverse, List.mem_map] at hc
      obtain ⟨d, hd, rfl⟩ := hc
      exact digitChar_isDigit (hmem d hd)

theorem fromiso_iso (d : Int) : fromiso (iso d) = some d := by
  obtain ⟨c, cs, hcc, hdig⟩ := natChars_head_digit d.toNat
  obtain ⟨c', cs', hcc', hdig'⟩ := natChars_head_digit (-d).toNat
  have hcne : c ≠ '-' := by
    intro hc; rw [hc] at hdig; simp at hdig
  by_cases h : d < 0
  · have hi : iso d = ⟨'-' :: natChars (-d).toNat⟩ := by simp [iso, h]
    rw [hi]
    show fromisoChars ('-' :: natChars (-d).toNat) = some d
    rw [fromisoChars, if_pos rfl, natParse_natChars]
    simp only [Option.map_some']
    congr 1
    show -(((-d).toNat : Int)) = d
    rw [Int.toNat_of_nonneg (by omega : (0 : Int) ≤ -d)]
    omega
  · have hi : iso d = ⟨natChars d.toNat⟩ := by simp [iso, h]
    rw [hi]
    show fromisoChars (natChars d.toNat) = some d
    rw [hcc, fromisoChars, if_neg hcne, ← hcc, natParse_natChars]
    simp only [Option.map_some']
    congr 1
    show ((d.toNat : Int)) = d
    exact Int.toNat_of_nonneg (by omega)

/-! ## `CustomSerializer` (`toggl_cli.py`)

`encode` walks the top-level list; a `TProject`/`TogglTracker` becomes
its `_asdict()` mapping (fields in declaration order) with a
`"data type"` discriminator appended; the leading `datetime` is turned
into its isoformat string by `default`. -/

def encOptStr : Option String → JVal
  | none => .null
  | some s => .str s

def encOptStrList : Option (List String) → JVal
  | none => .null
  | some l => .arr (l.map .str)

/-- `TogglTracker._asdict()` as JSON object fields, in field order. -/
def trackerFields (t : TogglTracker) : List (String × JVal) :=
  [("description", .str t.description), ("entry_id", .str t.entry_id),
   ("stop", .str t.stop), ("project", encOptStr t.project),
   ("start", encOptStr t.start), ("duration", encOptStr t.duration),
   ("tags", encOptStrList t.tags)]

/-- `TProject._asdict()` as JSON object fields, in field order. -/
def projectFields (p : TProject) : List (String × JVal) :=
  [("name", .str p.name), ("project_id", .int p.project_id),
   ("client", .str p.client), ("color", .str p.color),
   ("active", .bool p.active)]

/-- `CustomSerializer.encode` on one record: `_asdict()` plus the
`"data type"` tag. -/
def encodeRecord : Record → JVal
  | .tracker t => .obj (trackerFields t ++ [("data type", .str "TogglTracker")])
  | .project p => .obj (projectFields p ++ [("data type", .str "TProject")])

/-- `TogglCli.cache_data`: insert `datetime.now()` at index 0 and
serialize the list (the timestamp passes through `default` and becomes
its isoformat string). -/
def cache_data (now : Int) (data : List Record) : JVal :=
  .arr (.str (iso now) :: data.map encodeRecord)

/-! ## `CustomDeserializer` (`toggl_cli.py`) -/

/-- An item of the decoded cache list: a timestamp (a top-level string,
parsed by `datetime.fromisoformat` and moved to the front), a
reconstructed record, or anything else passed through unchanged. -/
inductive DItem where
  | dt (d : Int)
  | record (r : Record)
  | raw (j : JVal)

/-- `dict.pop(k)`: the object without key `k` (JSON objects produced by
`json.loads` have unique keys). -/
def removeKey (fields : List (String × JVal)) (k : String) :
    List (String × JVal) :=
  fields.filter fun kv => kv.1 != k

def trackerKeys : List String :=
  ["description", "entry_id", "stop", "project", "start", "duration", "tags"]

def projectKeys : List String :=
  ["name", "project_id", "client", "color", "active"]

/-- Decode a required string field; a missing key is the `TypeError`
`TogglTracker(**item)` raises for a missing required argument. -/
def decStr : Option JVal → Option String
  | some (.str s) => some s
  | _ => none

/-- Decode an optional string field; a missing key falls back to the
named tuple's `None` default. -/
def decOptStr : Option JVal → Option (Option String)
  | none => some none
  | some .null => some none
  | some (.str s) => some (some s)
  | _ => none

def decStrList (items : List JVal) : Option (List String) :=
  items.mapM fun j => match j with
    | .str s => some s
    | _ => none

def decOptTags : Option JVal → Option (Option (List String))
  | none => some none
  | some .null => some none
  | some (.arr items) => (decStrList items).map some
  | _ => none

def decInt : Option JVal → Option Int
  | some (.int n) => some n
  | _ => none

/-- Decode the `active` field of `TProject`, whose named-tuple default
is `True` when the key is missing. -/
def decActive : Option JVal → Option Bool
  | none => some true
  | some (.bool b) => some b
  | _ => none

/-- `TogglTracker(**item)`: build a tracker from the decoded mapping;
`none` is the `TypeError` raised for unexpected or missing keys. -/
def decodeTracker (fields : List (String × JVal)) : Option TogglTracker :=
  if fields.all fun kv => trackerKeys.contains kv.1 then do
    let description ← decStr (fields.lookup "description")
    let entry_id ← decStr (fields.lookup "entry_id")
    let stop ← decStr (fields.lookup "stop")
    let project ← decOptStr (fields.lookup "project")
    let start ← decOptStr (fields.lookup "start")
    let duration ← decOptStr (fields.lookup "duration")
    let tags ← decOptTags (fields.lookup "tags")
    some ⟨description, entry_id, stop, project, start, duration, tags⟩
  else none

/-- `TProject(**item)`. -/
def decodeProject (fields : List (String × JVal)) : Option TProject :=
  if fields.all fun kv => projectKeys.contains kv.1 then do
    let name ← decStr (fields.lookup "name")
    let project_id ← decInt (fields.lookup "project_id")
    let client ← decStr (fields.lookup "client")
    let color ← decStr (fields.lookup "color")
    let active ← decActive (fields.lookup "active")
    some ⟨name, project_id, client, color, active⟩
  else none

/-- The loop of `CustomDeserializer.decode`: objects carrying a known
`"data type"` tag are reconstructed and appended; a top-level string is
parsed as a datetime and inserted at index 0 of the accumulator;
everything else is appended unchanged.  `none` models a raised
exception (`ValueError` from `fromisoformat`, `TypeError` from a
failed named-tuple construction). -/
def deserItems : List JVal → List DItem → Option (List DItem)
  | [], acc => some acc
  | item :: rest, acc =>
    match item with
    | .str s =>
      match fromiso s with
      | some d => deserItems rest (.dt d :: acc)
      | none => none
    | .obj fields =>
      match fields.lookup "data type" with
      | some (.str "TProject") => do
          let p ← decodeProject (removeKey fields "data type")
          deserItems rest (acc ++ [.record (.project p)])
      | some (.str "TogglTracker") => do
          let t ← decodeTracker (removeKey fields "data type")
          deserItems rest (acc ++ [.record (.tracker t)])
      | some _ => deserItems rest (acc ++ [.raw (.obj (removeKey fields "data type"))])
      | none => deserItems rest (acc ++ [.raw (.obj fields)])
    | other => deserItems rest (acc ++ [.raw other])

/-- `CustomDeserializer.decode` applied to the cache file content (the
file this code writes always holds a JSON array at top level). -/
def deser : JVal → Option (List DItem)
  | .arr items => deserItems items []
  | _ => none

/-- `TogglCli.load_data`: decode the file, pop the leading timestamp,
report stale (`None`, modelled `none`) when
`datetime.now() - CACHE_LEN >= date`, otherwise return the remaining
records.  `none` also models the exceptions raised on an empty list
(`IndexError` from `pop`) or a non-datetime head (`TypeError` from the
comparison). -/
def load_data (file : JVal) (now ttl : Int) : Option (List DItem) := do
  let items ← deser file
  match items with
  | [] => none
  | first :: rest =>
    match first with
    | .dt d => if now - ttl ≥ d then none else some rest
    | _ => none

/-! ## Cache round-trip lemmas -/

theorem decStrList_map (l : List String) :
    decStrList (l.map JVal.str) = some l := by
  induction l with
  | nil => rfl
  | cons s rest ih =>
    simp only [List.map_cons, decStrList, List.mapM_cons] at ih ⊢
    rw [ih]
    rfl

theorem decodeTracker_trackerFields (t : TogglTracker) :
    decodeTracker (trackerFields t) = some t := by
  obtain ⟨de, en, st, pr, sa, du, ta⟩ := t
  cases pr <;> cases sa <;> cases du <;> cases ta <;>
    simp [decodeTracker, trackerFields, trackerKeys, decStr, decOptStr,
      decOptTags, encOptStr, encOptStrList, decStrList_map, List.lookup]

theorem decodeProject_projectFields (p : TProject) :
    decodeProject (projectFields p) = some p := by
  obtain ⟨na, pid, cl, co, ac⟩ := p
  simp [decodeProject, projectFields, projectKeys, decStr, decInt,
    decActive, List.lookup]

theorem removeKey_trackerFields (t : TogglTracker) (v : JVal) :
    removeKey (trackerFields t ++ [("data type", v)]) "data type"
      = trackerFields t := rfl

theorem removeKey_projectFields (p : TProject) (v : JVal) :
    removeKey (projectFields p ++ [("data type", v)]) "data type"
      = projectFields p := rfl

theorem deserItems_tracker (t : TogglTracker) (rest : List JVal)
    (acc : List DItem) :
    deserItems (encodeRecord (.tracker t) :: rest) acc
      = deserItems rest (acc ++ [.record (.tracker t)]) := by
  show (do
    let x ← decodeTracker (removeKey (trackerFields t
      ++ [("data type", JVal.str "TogglTracker")]) "data type")
    deserItems rest (acc ++ [DItem.record (Record.tracker x)]))
    = deserItems rest (acc ++ [DItem.record (Record.tracker t)])
  rw [removeKey_trackerFields, decodeTracker_trackerFields]
  rfl

theorem deserItems_project (p : TProject) (rest : List JVal)
    (acc : List DItem) :
    deserItems (encodeRecord (.project p) :: rest) acc
      = deserItems rest (acc ++ [.record (.project p)]) := by
  show (do
    let x ← decodeProject (removeKey (projectFields p
      ++ [("data type", JVal.str "TProject")]) "data type")
    deserItems rest (acc ++ [DItem.record (Record.project x)]))
    = deserItems rest (acc ++ [DItem.record (Record.project p)])
  rw [removeKey_projectFields, decodeProject_projectFields]
  rfl

theorem deserItems_encode (recs : List Record) :
    ∀ acc, deserItems (recs.map encodeRecord) acc
      = some (acc ++ recs.map DItem.record) := by
  induction recs with
  | nil => intro acc; simp [deserItems]
  | cons r rest ih =>
    intro acc
    cases r with
    | tracker t =>
      rw [List.map_cons, deserItems_tracker, ih]
      simp
    | project p =>
      rw [List.map_cons, deserItems_project, ih]
      simp

theorem deser_cache_data (ts : Int) (records : List Record) :
    deser (cache_data ts records)
      = some (DItem.dt ts :: records.map DItem.record) := by
  rw [cache_data]
  show deserItems (JVal.str (iso ts) :: records.map encodeRecord) [] = _
  rw [deserItems]
  rw [fromiso_iso]
  show deserItems (records.map encodeRecord) [DItem.dt ts] = _
  rw [deserItems_encode]
  rfl

/-- Evaluation of a load of a just-written cache envelope: fresh iff
`now - timestamp < ttl`. -/
theorem load_cache_eval (records : List Record) (ts now ttl : Int) :
    load_data (cache_data ts records) now ttl
      = if now - ttl ≥ ts then none else some (records.map DItem.record) := by
  rw [load_data, deser_cache_data]
  rfl

/-- C1: for a stored cache envelope of either kind, loading returns the
records exactly when `now - capture_timestamp < TTL(kind)` and reports
stale (no records) otherwise, where `TTL(tracker) = 1 day` and
`TTL(project) = 2 weeks`. -/
theorem c1_cache_freshness (k : RecordKind) (records : List Record)
    (ts now : Int) :
    (now - ts < CACHE_LEN k →
      load_data (cache_data ts records) now (CACHE_LEN k)
        = some (records.map DItem.record))
    ∧ (CACHE_LEN k ≤ now - ts →
      load_data (cache_data ts records) now (CACHE_LEN k) = none)
    ∧ CACHE_LEN RecordKind.tracker = 24 * 60 * 60
    ∧ CACHE_LEN RecordKind.project = 2 * (7 * (24 * 60 * 60)) := by
  refine ⟨fun h => ?_, fun h => ?_, rfl, rfl⟩
  · rw [load_cache_eval, if_neg (by omega)]
  · rw [load_cache_eval, if_pos (by omega)]

/-- Witness for `c1_cache_freshness`: one second of age is fresh for the
tracker TTL; an envelope aged exactly the TTL is stale. -/
theorem c1_cache_freshness_witness :
    load_data (cache_data 0 [Record.tracker ⟨"r", "9", "s", none, none, none, none⟩])
        1 (CACHE_LEN RecordKind.tracker)
      = some [DItem.record (Record.tracker ⟨"r", "9", "s", none, none, none, none⟩)]
    ∧ load_data (cache_data 0 [Record.tracker ⟨"r", "9", "s", none, none, none, none⟩])
        86400 (CACHE_LEN RecordKind.tracker) = none :=
  ⟨(c1_cache_freshness RecordKind.tracker
      [Record.tracker ⟨"r", "9", "s", none, none, none, none⟩] 0 1).1 (by decide),
   (c1_cache_freshness RecordKind.tracker
      [Record.tracker ⟨"r", "9", "s", none, none, none, none⟩] 0 86400).2.1 (by decide)⟩

/-- C2: storing a record list in the cache and loading it back within
the TTL yields an equal ordered sequence, with each record reconstructed
to its original kind via the serialized `"data type"` discriminator. -/
theorem c2_cache_roundtrip (k : RecordKind) (records : List Record)
    (t0 t1 : Int) (h : t1 - t0 < CACHE_LEN k) :
    load_data (cache_data t0 records) t1 (CACHE_LEN k)
      = some (records.map DItem.record) := by
  rw [load_cache_eval, if_neg (by omega)]

/-- Witness for `c2_cache_roundtrip`: a mixed tracker/project list
round-trips through the cache one second after being stored. -/
theorem c2_cache_roundtrip_witness :
    (1 - 0 < CACHE_LEN RecordKind.project)
    ∧ load_data
        (cache_data 0
          [Record.tracker ⟨"work", "77", "10:01", some "proj", some "10:00",
            some "0:01", some ["a", "b"]⟩,
           Record.project ⟨"proj", 42, "client", "#ffffff", true⟩])
        1 (CACHE_LEN RecordKind.project)
      = some
          [DItem.record (Record.tracker ⟨"work", "77", "10:01", some "proj",
            some "10:00", some "0:01", some ["a", "b"]⟩),
           DItem.record (Record.project ⟨"proj", 42, "client", "#ffffff", true⟩)] :=
  ⟨by decide,
   c2_cache_roundtrip RecordKind.project
     [Record.tracker ⟨"work", "77", "10:01", some "proj", some "10:00",
        some "0:01", some ["a", "b"]⟩,
      Record.project ⟨"proj", 42, "client", "#ffffff", true⟩]
     0 1 (by decide)⟩

/-! ## Query tokenizer (`KeywordQueryEventListener.parse_query`)

The raw query string is the `query` parameter, the whitespace-split
token list the `args` parameter (the caller passes
`parse_query(args, query)` with `query = args.split(" ")`, so inside
the function `query` is the raw STRING and `args` the token list). -/

/-- Python regex `\w` class, ASCII approximation (all inputs the claims
evaluate are ASCII). -/
def isWordChar (c : Char) : Bool := c.isAlphanum || c = '_'

/-- The character class `[\w \-]` of the description pattern. -/
def descClass (c : Char) : Bool := isWordChar c || c = ' ' || c = '-'

/-- Greedy backtracking of `[\w \-]+(?=")`: the largest match length
`j ≤ m` (and `j ≥ 1`) whose following character is `\"`. -/
def bestK (tail : List Char) : Nat → Option Nat
  | 0 => none
  | k + 1 => if tail[k + 1]? = some '"' then some (k + 1) else bestK tail k

/-- Attempt the description pattern with the `[\w \-]+` atom starting at
position `p` (the lookbehind has already been checked). -/
def tryDescAt (s : List Char) (p : Nat) : Option (List Char) :=
  let tail := s.drop p
  (bestK tail (tail.takeWhile descClass).length).map fun k => tail.take k

/-- `re.search(r'(?P<desc>(?<=\")[\w \-]+(?=\"))', query)`: leftmost
match position, greedy match length. -/
def findDesc (s : List Char) : Option (List Char) :=
  (List.range s.length).findSome? fun p =>
    if p = 0 then none
    else if s[p - 1]? = some '"' then tryDescAt s p else none

/-- The argument mapping produced by the tokenizer. -/
structure PyArgs where
  description : Option String := none
  tags : Option (List String) := none
  project : Option (Int ⊕ String) := none
  duration : Option String := none
  start : Option String := none
  stop : Option String := none
  refresh : Bool := false
deriving DecidableEq

/-- Digits of Python `int(...)` after the first: single underscores are
allowed between digits. -/
def digitsVal : List Char → Nat → Option Nat
  | [], acc => some acc
  | '_' :: c :: rest, acc =>
      if c.isDigit then digitsVal rest (acc * 10 + (c.toNat - 48)) else none
  | c :: rest, acc =>
      if c.isDigit then digitsVal rest (acc * 10 + (c.toNat - 48)) else none

/-- A non-empty digit sequence (no leading underscore). -/
def pyIntDigits : List Char → Option Nat
  | [] => none
  | c :: rest => if c.isDigit then digitsVal rest (c.toNat - 48) else none

/-- Python `int(str)`: strip whitespace, optional sign, decimal digits
with optional single separating underscores; `none` models the
`ValueError` the caller suppresses. -/
def pyInt (l : List Char) : Option Int :=
  match pyStrip l with
  | '+' :: rest => (pyIntDigits rest).map fun n => Int.ofNat n
  | '-' :: rest => (pyIntDigits rest).map fun n => -(Int.ofNat n)
  | t => (pyIntDigits t).map fun n => Int.ofNat n

/-- The AM/PM merge check of the source, encoded faithfully: the code
tests `i + 1 < len(query)` and `query[i + 1] in {"AM", "PM"}` where
`query` is the raw STRING, so `query[i + 1]` is a single character
compared against the two-character strings `"AM"`/`"PM"`. -/
def amCheck (queryStr : List Char) (i : Nat) (base : List Char) : List Char :=
  if i + 1 < queryStr.length
      ∧ ([queryStr.getD (i + 1) ' '] = "AM".toList
        ∨ [queryStr.getD (i + 1) ' '] = "PM".toList) then
    base ++ (' ' :: [queryStr.getD (i + 1) ' '])
  else base

/-- The token loop of `parse_query` over `args[1:]`, with `i` the
enumerate index; an empty token makes `item[0]` raise `IndexError`,
modelled `none`. -/
def parseTokens (queryStr : List Char) :
    Nat → PyArgs → List (List Char) → Option PyArgs
  | _, acc, [] => some acc
  | i, acc, item :: rest =>
    match item with
    | [] => none
    | c :: cs =>
      let acc' :=
        if c = '#' then
          { acc with tags := some ((pySplitChar ',' cs).map fun g => (⟨g⟩ : String)) }
        else if c = '@' then
          { acc with project := some (match pyInt cs with
              | some n => .inl n
              | none => .inr (⟨cs⟩ : String)) }
        else if c = '>' ∧ (c :: cs).getLastD 'x' = '<' then
          { acc with duration := some (⟨cs.dropLast⟩ : String) }
        else if c = '>' then
          { acc with start := some (⟨amCheck queryStr i cs⟩ : String) }
        else if c = '<' then
          { acc with stop := some (⟨amCheck queryStr i cs⟩ : String) }
        else if c :: cs = "refresh".toList then
          { acc with refresh := true }
        else acc
      parseTokens queryStr (i + 1) acc' rest

/-- `KeywordQueryEventListener.parse_query`: the description regex
pre-pass followed by the token loop. -/
def parse_query (query : String) (args : List String) : Option PyArgs :=
  parseTokens query.toList 0
    { description := (findDesc query.toList).map fun l => (⟨l⟩ : String) }
    ((args.drop 1).map String.toList)

/-- The tokenizer as invoked by `on_event`: the token list is the raw
query split on single spaces. -/
def parse_query_top (s : String) : Option PyArgs :=
  parse_query s ((pySplitChar ' ' s.toList).map fun l => (⟨l⟩ : String))

/-- C4: parsing `'"Write report" @123 #a,b >9:00< refresh'` yields
exactly description "Write report", project 123 (as an integer), tags
["a","b"], duration "9:00" and the refresh flag, with no start or stop
key. -/
theorem c4_tokenizer_example :
    parse_query_top "\"Write report\" @123 #a,b >9:00< refresh"
      = some { description := some "Write report", tags := some ["a", "b"],
               project := some (.inl 123), duration := some "9:00",
               start := none, stop := none, refresh := true } := by
  rfl

/-- C5 evaluation at the failing input: a raw query containing an empty
token (two consecutive spaces) makes the token loop hit `item[0]` on an
empty string, an `IndexError` (modelled `none`), contradicting
"tokenization never fails". -/
theorem c5_empty_token_error : parse_query_top "x  y" = none := by
  rfl

/-- C6 evaluation: the AM/PM merge is dead code — the source indexes the
raw query string instead of the token list, comparing a single character
with the two-character strings "AM"/"PM", so the merge never fires
(first conjunct); in particular `start >9:00 AM` extracts start "9:00",
not "9:00 AM" (second conjunct). -/
theorem c6_am_merge_never_fires :
    (∀ (s : List Char) (i : Nat) (base : List Char), amCheck s i base = base)
    ∧ parse_query_top "start >9:00 AM" = some { start := some "9:00" } := by
  constructor
  · intro s i base
    rw [amCheck]
    rw [if_neg]
    rintro ⟨-, h | h⟩ <;> simp at h
  · rfl

/-! ## Fuzzy fallback dispatcher (`TogglExtension.match_results`)

`match_results` iterates the keyword→handler mapping in insertion
order; a handler invoked through `fn(*args, **kwargs)[0]` may raise
`TypeError` (caught: `continue`, and the handler is NOT recorded in
`matched_results`) or `IndexError` when it returns an empty list
(uncaught — propagates).  We model a handler as an identity plus a
fixed behaviour, and the dispatcher returns its result (or the
propagated error) together with the ordered log of handler
invocations.  The similarity score (`get_score`, 0–100) is an external
library function and is a parameter of the model. -/

/-- What invoking a handler in fallback mode does: raise `TypeError`
(signature mismatch) or return its result list. -/
inductive HBehavior (R : Type) where
  | typeError
  | ok (results : List R)
deriving DecidableEq

/-- A handler of the dispatch table: identity (set membership in
`matched_results` compares bound methods) plus fallback behaviour. -/
structure Handler (R : Type) where
  id : Nat
  behavior : HBehavior R
deriving DecidableEq

/-- An exception escaping `match_results`. -/
inductive PyErr where
  | typeError
  | indexError
deriving DecidableEq

/-- `TogglExtension.match_query`: fuzzy score meets the threshold (the
call sites use the default threshold 50). -/
def match_query (score : String → String → ℚ) (query target : String)
    (threshold : ℚ) : Bool :=
  score query target ≥ threshold

/-- The loop of `match_results`: `results` and `matched` are the local
accumulators of the source; `log` records every handler invocation in
order (it is the observation the claims speak about, not program
state). -/
def matchResultsAux {R : Type} [DecidableEq R]
    (score : String → String → ℚ) (query : String) :
    List (String × Handler R) → List R → List (Handler R) → List (Handler R)
      → Except PyErr (List R) × List (Handler R)
  | [], results, _, log => (.ok results, log)
  | (trg, fn) :: rest, results, matched, log =>
    if fn ∉ matched ∧ match_query score query trg 50 then
      match fn.behavior with
      | .typeError => matchResultsAux score query rest results matched (log ++ [fn])
      | .ok [] => (.error .indexError, log ++ [fn])
      | .ok (r :: _) =>
          matchResultsAux score query rest (results ++ [r]) (matched ++ [fn])
            (log ++ [fn])
    else matchResultsAux score query rest results matched log

/-- `TogglExtension.match_results` over a keyword→handler table, paired
with the invocation log. -/
def match_results {R : Type} [DecidableEq R]
    (score : String → String → ℚ) (query : String)
    (match_dict : List (String × Handler R)) :
    Except PyErr (List R) × List (Handler R) :=
  matchResultsAux score query match_dict [] [] []

theorem matchResultsAux_filter {R : Type} [DecidableEq R]
    (score : String → String → ℚ) (query : String) :
    ∀ (dict : List (String × Handler R)) results matched log log',
      (∀ x ∈ matched, x.behavior ≠ .typeError) →
      (matchResultsAux score query dict results matched log).1
        = (matchResultsAux score query
            (dict.filter fun e => decide (e.2.behavior ≠ .typeError))
            results matched log').1 := by
  intro dict
  induction dict with
  | nil => intro results matched log log' _; rfl
  | cons e rest ih =>
    intro results matched log log' hmatched
    obtain ⟨trg, fn⟩ := e
    rw [List.filter_cons]
    rcases hb : fn.behavior with _ | l
    · have hfn : fn ∉ matched := fun hm => hmatched fn hm hb
      rw [if_neg (show ¬(decide ((HBehavior.typeError : HBehavior R)
        ≠ HBehavior.typeError) = true) from fun h => (of_decide_eq_true h) rfl)]
      rw [matchResultsAux]
      by_cases hq : match_query score query trg 50 = true
      · rw [if_pos ⟨hfn, hq⟩, hb]
        show (matchResultsAux score query rest results matched (log ++ [fn])).1 = _
        exact ih results matched (log ++ [fn]) log' hmatched
      · rw [if_neg (by tauto)]
        exact ih results matched log log' hmatched
    · simp only [hb, ne_eq, reduceCtorEq, not_false_eq_true, decide_True,
        if_true]
      rw [matchResultsAux, matchResultsAux]
      by_cases hc : (fn ∉ matched ∧ match_query score query trg 50 = true)
      · rw [if_pos hc, if_pos hc, hb]
        cases l with
        | nil => rfl
        | cons r rs =>
          exact ih (results ++ [r]) (matched ++ [fn]) (log ++ [fn]) (log' ++ [fn])
            (by intro x hx
                rcases List.mem_append.mp hx with hx | hx
                · exact hmatched x hx
                · rw [List.mem_singleton.mp hx, hb]
                  simp)
      · rw [if_neg hc, if_neg hc]
        exact ih results matched log log' hmatched

theorem matchResultsAux_no_typeError {R : Type} [DecidableEq R]
    (score : String → String → ℚ) (query : String) :
    ∀ (dict : List (String × Handler R)) results matched log,
      (matchResultsAux score query dict results matched log).1
        ≠ .error .typeError := by
  intro dict
  induction dict with
  | nil => intro results matched log h; exact Except.noConfusion h
  | cons e rest ih =>
    intro results matched log
    obtain ⟨trg, fn⟩ := e
    rw [matchResultsAux]
    split
    · rcases hb : fn.behavior with _ | (_ | ⟨r, rs⟩)
      · exact ih _ _ _
      · intro h
        injection h with h
        exact PyErr.noConfusion h
      · exact ih _ _ _
    · exact ih _ _ _

/-- C9: a handler that raises `TypeError` in fallback dispatch
contributes nothing and changes nothing — the dispatch result equals
the result of dispatching the table with all `TypeError` handlers
removed (so every other handler scoring at or above the threshold still
contributes its first result) — and a `TypeError` is never propagated
to the caller. -/
theorem c9_typeerror_skipped {R : Type} [DecidableEq R]
    (score : String → String → ℚ) (query : String)
    (dict : List (String × Handler R)) :
    (match_results score query dict).1
      = (match_results score query
          (dict.filter fun e => decide (e.2.behavior ≠ .typeError))).1
    ∧ (match_results score query dict).1 ≠ .error .typeError :=
  ⟨matchResultsAux_filter score query dict [] [] [] [] (by simp),
   matchResultsAux_no_typeError score query dict [] [] []⟩

/-- Witness for `c9_typeerror_skipped` at a concrete table: a
`TypeError` handler on "stop" alongside a succeeding handler on
"end". -/
theorem c9_typeerror_skipped_witness :
    (match_results (fun _ _ => (60 : ℚ)) "stp"
        [("stop", (⟨2, HBehavior.typeError⟩ : Handler Nat)),
         ("end", (⟨3, HBehavior.ok [9]⟩ : Handler Nat))]).1
      = (match_results (fun _ _ => (60 : ℚ)) "stp"
          ([("stop", (⟨2, HBehavior.typeError⟩ : Handler Nat)),
            ("end", (⟨3, HBehavior.ok [9]⟩ : Handler Nat))].filter
            fun e => decide (e.2.behavior ≠ HBehavior.typeError))).1
    ∧ (match_results (fun _ _ => (60 : ℚ)) "stp"
        [("stop", (⟨2, HBehavior.typeError⟩ : Handler Nat)),
         ("end", (⟨3, HBehavior.ok [9]⟩ : Handler Nat))]).1
      ≠ Except.error PyErr.typeError :=
  c9_typeerror_skipped (fun _ _ => (60 : ℚ)) "stp"
    [("stop", (⟨2, HBehavior.typeError⟩ : Handler Nat)),
     ("end", (⟨3, HBehavior.ok [9]⟩ : Handler Nat))]

theorem matchResultsAux_log_mem {R : Type} [DecidableEq R]
    (score : String → String → ℚ) (query : String) (h : Handler R) :
    ∀ (dict : List (String × Handler R)) results matched log,
      (∀ e ∈ dict, e.2.behavior ≠ HBehavior.ok []) →
      (∀ x ∈ matched, x ∈ log) →
      (h ∈ (matchResultsAux score query dict results matched log).2
        ↔ h ∈ log
          ∨ ∃ e ∈ dict, e.2 = h ∧ match_query score query e.1 50 = true) := by
  intro dict
  induction dict with
  | nil => intro results matched log _ _; simp [matchResultsAux]
  | cons e rest ih =>
    intro results matched log hne hsub
    obtain ⟨trg, fn⟩ := e
    have hnerest : ∀ e ∈ rest, e.2.behavior ≠ HBehavior.ok [] :=
      fun e he => hne e (List.mem_cons_of_mem _ he)
    rw [matchResultsAux]
    by_cases hc : (fn ∉ matched ∧ match_query score query trg 50 = true)
    · rw [if_pos hc]
      rcases hbb : fn.behavior with _ | (_ | ⟨r, rs⟩)
      · rw [ih results matched (log ++ [fn]) hnerest
          (fun x hx => List.mem_append_left _ (hsub x hx))]
        constructor
        · intro hx
          rcases hx with hx | ⟨e, he, hh⟩
          · rcases List.mem_append.mp hx with hl | hf
            · exact Or.inl hl
            · have hhf : h = fn := List.mem_singleton.mp hf
              exact Or.inr ⟨(trg, fn), List.mem_cons_self _ _, hhf.symm, hc.2⟩
          · exact Or.inr ⟨e, List.mem_cons_of_mem _ he, hh⟩
        · intro hx
          rcases hx with hl | ⟨e, he, hh⟩
          · exact Or.inl (List.mem_append_left _ hl)
          · rcases List.mem_cons.mp he with rfl | he
            · exact Or.inl (List.mem_append_right _
                (List.mem_singleton.mpr hh.1.symm))
            · exact Or.inr ⟨e, he, hh⟩
      · exact absurd hbb (hne (trg, fn) (List.mem_cons_self _ _))
      · rw [ih (results ++ [r]) (matched ++ [fn]) (log ++ [fn]) hnerest
          (fun x hx => by
            rcases List.mem_append.mp hx with hx | hx
            · exact List.mem_append_left _ (hsub x hx)
            · exact List.mem_append_right _ hx)]
        constructor
        · intro hx
          rcases hx with hx | ⟨e, he, hh⟩
          · rcases List.mem_append.mp hx with hl | hf
            · exact Or.inl hl
            · have hhf : h = fn := List.mem_singleton.mp hf
              exact Or.inr ⟨(trg, fn), List.mem_cons_self _ _, hhf.symm, hc.2⟩
          · exact Or.inr ⟨e, List.mem_cons_of_mem _ he, hh⟩
        · intro hx
          rcases hx with hl | ⟨e, he, hh⟩
          · exact Or.inl (List.mem_append_left _ hl)
          · rcases List.mem_cons.mp he with rfl | he
            · exact Or.inl (List.mem_append_right _
                (List.mem_singleton.mpr hh.1.symm))
            · exact Or.inr ⟨e, he, hh⟩
    · rw [if_neg hc]
      rw [ih results matched log hnerest hsub]
      constructor
      · intro hx
        rcases hx with hl | ⟨e, he, hh⟩
        · exact Or.inl hl
        · exact Or.inr ⟨e, List.mem_cons_of_mem _ he, hh⟩
      · intro hx
        rcases hx with hl | ⟨e, he, hh⟩
        · exact Or.inl hl
        · rcases List.mem_cons.mp he with rfl | he
          · -- the head keyword: either it scores below threshold (then
            -- its witness is contradictory) or the handler was already
            -- in `matched_results`, hence already invoked (in `log`)
            by_cases hq : match_query score query trg 50 = true
            · have hm : fn ∈ matched := by
                by_contra hnm
                exact hc ⟨hnm, hq⟩
              have hl : h ∈ log := by
                have := hsub fn hm
                rwa [show fn = h from hh.1] at this
              exact Or.inl hl
            · exact absurd hh.2 hq
          · exact Or.inr ⟨e, he, hh⟩

theorem matchResultsAux_count {R : Type} [DecidableEq R]
    (score : String → String → ℚ) (query : String) (h : Handler R)
    (r : R) (rs : List R) (hok : h.behavior = HBehavior.ok (r :: rs)) :
    ∀ (dict : List (String × Handler R)) results matched log,
      log.count h ≤ (if h ∈ matched then 1 else 0) →
      (matchResultsAux score query dict results matched log).2.count h ≤ 1 := by
  intro dict
  induction dict with
  | nil =>
    intro results matched log hinv
    simp only [matchResultsAux]
    split at hinv <;> omega
  | cons e rest ih =>
    intro results matched log hinv
    obtain ⟨trg, fn⟩ := e
    rw [matchResultsAux]
    by_cases hc : (fn ∉ matched ∧ match_query score query trg 50 = true)
    · rw [if_pos hc]
      rcases hbb : fn.behavior with _ | (_ | ⟨r', rs'⟩)
      · have hfh : fn ≠ h := fun hf => by rw [hf, hok] at hbb; cases hbb
        have hcnt : (log ++ [fn]).count h = log.count h := by
          rw [List.count_append]
          simp [List.count_singleton', hfh]
        exact ih results matched (log ++ [fn]) (by rw [hcnt]; exact hinv)
      · have hfh : fn ≠ h := fun hf => by
          rw [hf, hok] at hbb; cases hbb
        have hcnt : (log ++ [fn]).count h = log.count h := by
          rw [List.count_append]
          simp [List.count_singleton', hfh]
        show (log ++ [fn]).count h ≤ 1
        rw [hcnt]
        split at hinv <;> omega
      · by_cases hfh : fn = h
        · subst hfh
          have hz : log.count fn = 0 := by
            rw [if_neg hc.1] at hinv
            omega
          refine ih (results ++ [r']) (matched ++ [fn]) (log ++ [fn]) ?_
          rw [List.count_append, hz, if_pos (List.mem_append_right _
            (List.mem_singleton_self _))]
          simp [List.count_singleton']
        · have hcnt : (log ++ [fn]).count h = log.count h := by
            rw [List.count_append]
            simp [List.count_singleton', hfh]
          refine ih (results ++ [r']) (matched ++ [fn]) (log ++ [fn]) ?_
          rw [hcnt]
          have hmem : (h ∈ matched ++ [fn]) ↔ h ∈ matched := by
            rw [List.mem_append]
            constructor
            · rintro (hm | hf)
              · exact hm
              · exact absurd (List.mem_singleton.mp hf).symm hfh
            · exact Or.inl
          rw [if_congr hmem rfl rfl]
          exact hinv
    · rw [if_neg hc]
      exact ih results matched log hinv

/-- C3 (amended): in fuzzy fallback dispatch a handler is invoked (at
least once) exactly when some keyword mapped to it scores at least the
fixed threshold of 50 against the token, and a handler that returns a
non-empty result list is invoked at most once per dispatch even when
several synonym keywords map to it; a handler that raises `TypeError`,
however, is re-invoked for each scoring synonym keyword (its failure is
not recorded in `matched_results` — see the counterexample). -/
theorem c3_fuzzy_dispatch {R : Type} [DecidableEq R]
    (score : String → String → ℚ) (query : String)
    (dict : List (String × Handler R)) (h : Handler R)
    (_hnoexact : ∀ e ∈ dict, e.1 ≠ query)
    (hnonempty : ∀ e ∈ dict, e.2.behavior ≠ HBehavior.ok []) :
    (h ∈ (match_results score query dict).2
      ↔ ∃ e ∈ dict, e.2 = h ∧ match_query score query e.1 50 = true)
    ∧ (∀ r rs, h.behavior = HBehavior.ok (r :: rs) →
        (match_results score query dict).2.count h ≤ 1) := by
  constructor
  · have := matchResultsAux_log_mem score query h dict [] [] [] hnonempty
      (by simp)
    simpa [match_results] using this
  · intro r rs hok
    exact matchResultsAux_count score query h r rs hok dict [] [] [] (by simp)

/-- C3 counterexample: the token "stp" has no exact match; both "stop"
and "end" map to the same handler; the handler raises `TypeError` in
fallback mode, so its failure is never recorded in `matched_results`
and it is invoked TWICE in one dispatch, refuting "each distinct
handler is invoked at most once per dispatch". -/
theorem c3_at_most_once_counterexample :
    ("stp" : String) ≠ "stop" ∧ ("stp" : String) ≠ "end"
    ∧ (match_results (fun _ _ => (60 : ℚ)) "stp"
        [("stop", (⟨0, HBehavior.typeError⟩ : Handler Nat)),
         ("end", (⟨0, HBehavior.typeError⟩ : Handler Nat))]).2.count
        (⟨0, HBehavior.typeError⟩ : Handler Nat) = 2 :=
  ⟨by decide, by decide, by rfl⟩

/-- Witness for `c3_fuzzy_dispatch`: for the token "stp" with synonym
keywords "stop" and "end" both mapped to one successfully-returning
stop handler and both scoring 60 ≥ 50, the handler is invoked, and at
most once. -/
theorem c3_fuzzy_dispatch_witness :
    ((⟨1, HBehavior.ok [7]⟩ : Handler Nat)
        ∈ (match_results (fun _ _ => (60 : ℚ)) "stp"
            [("stop", (⟨1, HBehavior.ok [7]⟩ : Handler Nat)),
             ("end", (⟨1, HBehavior.ok [7]⟩ : Handler Nat))]).2
      ↔ ∃ e ∈ [("stop", (⟨1, HBehavior.ok [7]⟩ : Handler Nat)),
             ("end", (⟨1, HBehavior.ok [7]⟩ : Handler Nat))],
          e.2 = (⟨1, HBehavior.ok [7]⟩ : Handler Nat)
            ∧ match_query (fun _ _ => (60 : ℚ)) "stp" e.1 50 = true)
    ∧ (∀ r rs,
        (⟨1, HBehavior.ok [7]⟩ : Handler Nat).behavior = HBehavior.ok (r :: rs) →
        (match_results (fun _ _ => (60 : ℚ)) "stp"
            [("stop", (⟨1, HBehavior.ok [7]⟩ : Handler Nat)),
             ("end", (⟨1, HBehavior.ok [7]⟩ : Handler Nat))]).2.count
          (⟨1, HBehavior.ok [7]⟩ : Handler Nat) ≤ 1) :=
  c3_fuzzy_dispatch (fun _ _ => (60 : ℚ)) "stp"
    [("stop", (⟨1, HBehavior.ok [7]⟩ : Handler Nat)),
     ("end", (⟨1, HBehavior.ok [7]⟩ : Handler Nat))]
    (⟨1, HBehavior.ok [7]⟩ : Handler Nat) (by decide) (by decide)

/-! ## `TrackerCli.list_trackers`

The external CLI call (`base_command`, a `subprocess` invocation) is a
boundary: its stdout is supplied as an explicit list of lines
(`run = self.base_command(cmd).splitlines()`).  The in-memory list
`self.latest_trackers` and the persisted cache file form the state. -/

/-- Python truthiness of `kwargs.get("start", False)`: absent (`False`)
and the empty string are falsy. -/
def truthy : Option String → Bool
  | none => false
  | some s => s ≠ ""

/-- The mutable state `list_trackers` touches: `self.latest_trackers`
and the cache file (`none` = file absent). -/
structure TrackerState where
  latest : List TogglTracker
  cacheFile : Option JVal

/-- Observable outcome of one `list_trackers` call: the returned list,
the state afterwards, whether the external CLI was invoked, and whether
`cache_data` was called. -/
structure LTOutcome where
  result : List DItem
  final : TrackerState
  externalCalled : Bool
  cacheWrote : Bool

/-- The row loop of `list_trackers` over the output lines: `cnt` starts
at 1 (the first iteration only skips the header), `names` is
`checked_names`; `none` models the `ValueError` raised when a formatted
row does not unpack into exactly seven fields. -/
def parseRows (header_size : List Nat) (max_results : Nat) :
    List (List Char) → Nat → List (List Char) → List TogglTracker
      → Option (List TogglTracker)
  | [], _, _, acc => some acc
  | item :: rest, cnt, names, acc =>
    if cnt = 1 then parseRows header_size max_results rest (cnt + 1) names acc
    else
      match format_line header_size item (some names) with
      | none => parseRows header_size max_results rest cnt names acc
      | some [desc, dur, sta, stp, project, toggl_id, tags] =>
        let tracker : TogglTracker :=
          { description := ⟨pyStrip desc⟩, entry_id := ⟨toggl_id⟩,
            stop := ⟨pyStrip stp⟩, project := some ⟨project⟩,
            start := some ⟨sta⟩, duration := some ⟨dur⟩,
            tags := some ((pySplitOn (", ".toList) tags).map
              fun g => (⟨g⟩ : String)) }
        if cnt + 1 = max_results then some (acc ++ [tracker])
        else parseRows header_size max_results rest (cnt + 1)
          (names ++ [desc]) (acc ++ [tracker])
      | some _ => none

/-- The refresh path of `list_trackers`: run the external `ls` command
(its stdout lines are the `lines` parameter), parse the table, replace
`self.latest_trackers`, and write the cache iff the `refresh` flag is
set at that point.  `none` models the `IndexError` of `run[0]` on empty
output or the `ValueError` of the row unpacking. -/
def listTrackersRun (st : TrackerState) (now : Int) (refresh : Bool)
    (max_results : Nat) : List (List Char) → Option LTOutcome
  | [] => none
  | header :: rest =>
    match parseRows (count_table header) max_results (header :: rest) 1 [] [] with
    | none => none
    | some trackers =>
        some ⟨trackers.map fun t => DItem.record (Record.tracker t),
          ⟨trackers,
            if refresh then some (cache_data now (trackers.map Record.tracker))
            else st.cacheFile⟩,
          true, refresh⟩

/-- `TrackerCli.list_trackers`: serve the in-memory list, else a fresh
cache file, else run the external CLI (forcing a cache write only when
the `refresh` flag was passed or a stale cache file was found). -/
def list_trackers (st : TrackerState) (now : Int) (refresh : Bool)
    (start stop_arg : Option String) (max_results : Nat)
    (lines : List (List Char)) : Option LTOutcome :=
  if refresh = false ∧ st.latest ≠ [] ∧ (truthy start || truthy stop_arg) = false then
    some ⟨st.latest.map fun t => DItem.record (Record.tracker t), st, false, false⟩
  else if refresh = false ∧ st.cacheFile.isSome
      ∧ (truthy start || truthy stop_arg) = false then
    match st.cacheFile with
    | some f =>
      match load_data f now (CACHE_LEN RecordKind.tracker) with
      | some data => some ⟨data, st, false, false⟩
      | none => listTrackersRun st now true max_results lines
    | none => listTrackersRun st now refresh max_results lines
  else listTrackersRun st now refresh max_results lines

/-- The condition under which the final `refresh` flag is set (and hence
`cache_data` is called): the flag was passed, or the memory list was
empty, no time filter was given, and an existing cache file loaded
stale. -/
def refreshTrigger (st : TrackerState) (now : Int) (refresh : Bool)
    (start stop_arg : Option String) : Bool :=
  refresh
    || (!(truthy start || truthy stop_arg) && st.latest.isEmpty
        && (match st.cacheFile with
            | some f => (load_data f now (CACHE_LEN RecordKind.tracker)).isNone
            | none => false))

theorem listTrackersRun_spec (st : TrackerState) (now : Int)
    (refresh : Bool) (max_results : Nat) (lines : List (List Char))
    (out : LTOutcome)
    (h : listTrackersRun st now refresh max_results lines = some out) :
    out.externalCalled = true ∧ out.cacheWrote = refresh
    ∧ out.final.cacheFile
        = (if refresh then
            some (cache_data now (out.final.latest.map Record.tracker))
          else st.cacheFile) := by
  cases lines with
  | nil => rw [listTrackersRun] at h; exact Option.noConfusion h
  | cons header rest =>
    rw [listTrackersRun] at h
    cases hp : parseRows (count_table header) max_results (header :: rest) 1 [] [] with
    | none => rw [hp] at h; exact Option.noConfusion h
    | some trackers =>
      rw [hp] at h
      injection h with h
      subst h
      exact ⟨rfl, rfl, rfl⟩

/-- C8 (amended): a `list_trackers` call writes the cache exactly when
it ran the external CLI AND the refresh flag was passed or a
pre-existing cache file was found stale with no time filter given; a
listing triggered by a missing cache file, or carrying a start/stop
time filter, runs the external CLI without writing the cache.  When the
cache is written it is fully replaced by an envelope of the freshly
parsed list. -/
theorem c8_cache_write_condition (st : TrackerState) (now : Int)
    (refresh : Bool) (start stop_arg : Option String) (max_results : Nat)
    (lines : List (List Char)) (out : LTOutcome)
    (h : list_trackers st now refresh start stop_arg max_results lines
      = some out) :
    out.cacheWrote
      = (out.externalCalled && refreshTrigger st now refresh start stop_arg)
    ∧ (out.cacheWrote = true →
        out.final.cacheFile
          = some (cache_data now (out.final.latest.map Record.tracker))) := by
  rw [list_trackers] at h
  split at h
  next h1 =>
    injection h with h
    subst h
    exact ⟨rfl, fun hx => Bool.noConfusion hx⟩
  next h1 =>
    split at h
    next h2 =>
      split at h
      next f heq =>
        split at h
        next data heq2 =>
          injection h with h
          subst h
          exact ⟨rfl, fun hx => Bool.noConfusion hx⟩
        next heq2 =>
          obtain ⟨he, hw, hcf⟩ := listTrackersRun_spec st now true
            max_results lines out h
          have hlat : st.latest = [] := by
            by_contra hne
            exact h1 ⟨h2.1, hne, h2.2.2⟩
          constructor
          · rw [hw, he]
            have htr : refreshTrigger st now refresh start stop_arg = true := by
              simp [refreshTrigger, h2.1, h2.2.2, hlat, heq, heq2]
            rw [htr]
            rfl
          · intro _
            simpa using hcf
      next heq =>
        rw [heq] at h2
        simp at h2
    next h2 =>
      obtain ⟨he, hw, hcf⟩ := listTrackersRun_spec st now refresh
        max_results lines out h
      constructor
      · rw [hw, he]
        have htr : refreshTrigger st now refresh start stop_arg = refresh := by
          cases refresh with
          | true => simp [refreshTrigger]
          | false =>
            simp only [refreshTrigger, Bool.false_or]
            cases htimes : (truthy start || truthy stop_arg) with
            | true => simp [htimes]
            | false =>
              have hnone : st.cacheFile = none := by
                rcases hcfs : st.cacheFile with _ | f
                · rfl
                · exact absurd ⟨rfl, by rw [hcfs]; rfl, htimes⟩ h2
              rw [hnone]
              simp
        rw [htr]
        cases refresh <;> rfl
      · intro hx
        have hrt : refresh = true := hw.symm.trans hx
        rw [hrt] at hcf
        simpa using hcf

/-- C8 counterexample: with no memory, NO cache file, no time filter and
`refresh=False`, `list_trackers` runs the external CLI (first
conjunct) but never calls `cache_data` (second conjunct) — the stale
branch sets `refresh = True` only when a cache file exists, so a
first-ever listing leaves the cache unwritten, refuting "every external
listing call writes a new cache envelope". -/
theorem c8_external_without_write_counterexample :
    (list_trackers ⟨[], none⟩ 0 false none none 10 ["A B".toList]).map
        LTOutcome.externalCalled = some true
    ∧ (list_trackers ⟨[], none⟩ 0 false none none 10 ["A B".toList]).map
        LTOutcome.cacheWrote = some false :=
  ⟨rfl, rfl⟩

/-- Witness for `c8_cache_write_condition` at a concrete refresh call. -/
theorem c8_cache_write_condition_witness :
    ((⟨[], ⟨[], some (cache_data 0 [])⟩, true, true⟩ : LTOutcome).cacheWrote
      = ((⟨[], ⟨[], some (cache_data 0 [])⟩, true, true⟩ : LTOutcome).externalCalled
          && refreshTrigger ⟨[], none⟩ 0 true none none))
    ∧ ((⟨[], ⟨[], some (cache_data 0 [])⟩, true, true⟩ : LTOutcome).cacheWrote = true →
        (⟨[], ⟨[], some (cache_data 0 [])⟩, true, true⟩ : LTOutcome).final.cacheFile
          = some (cache_data 0
              ((⟨[], ⟨[], some (cache_data 0 [])⟩, true,
                true⟩ : LTOutcome).final.latest.map Record.tracker))) :=
  c8_cache_write_condition ⟨[], none⟩ 0 true none none 10 ["A B".toList] _ rfl

end ToggleExt
